import Mathlib

/-!
Verification development for the jigsaw puzzle game.

The definitions below are a shallow embedding of the Python sources:

* `src/jigsaw_puzzle/models/jigsaw_piece.py`  (`JigsawPiece`)
* `src/jigsaw_puzzle/models/game_state.py`    (`GameState`)
* `src/jigsaw_puzzle/services/drag_handler.py`(`DragHandler`)
* `src/jigsaw_puzzle/services/jigsaw_logic.py`(`JigsawLogic`)
* `src/jigsaw_puzzle/services/image_processor.py` (`ImageProcessor`)
* `src/main.py`                                (event loop, new-game reset, mode check)

Pieces are pygame objects in the source; here a piece is a record of the
fields the game logic reads and writes, with the image abstracted to its
pixel dimensions (the logic only ever queries `get_width`/`get_height`).
The mutable object graph (`DragHandler` holding a reference to the shared
`GameState` and to the dragged piece) is modelled by explicit state passing:
the dragged piece is the index of the piece inside `game_state.pieces`.
Randomness (`random.randint`) is modelled by an explicit choice function
plus the `randint` contract as a hypothesis; `random.randint(lo, hi)` with
`hi < lo` raises `ValueError`, modelled by returning `none`.
`float` distances: the code compares `sqrt(dx^2 + dy^2) <= t` with integer
coordinates and a nonnegative integer threshold, which holds iff
`dx^2 + dy^2 <= t^2`; the embedding uses the squared form to stay in `Int`.
-/

namespace Puzzle

/-- A jigsaw piece: the fields of `JigsawPiece.__init__` plus the
`target_pixel_position` attribute that `main.py` attaches before play.
`image` is the pygame surface abstracted to `(width, height)`. -/
structure JigsawPiece where
  image : Nat × Nat
  original_position : Nat × Nat
  pixel_position : Option (Int × Int)
  piece_id : Nat
  is_dragging : Bool
  is_placed : Bool
  z_index : Int
  target_pixel_position : Option (Int × Int)
deriving Repr, DecidableEq

/-- Squared Euclidean distance between two pixel positions.
`JigsawPiece.distance_to_correct_position` returns
`((dx**2 + dy**2) ** 0.5)`; the game only compares that value against a
nonnegative integer threshold, so the embedding keeps the exact square. -/
def distance_sq (pos target : Int × Int) : Int :=
  (pos.1 - target.1) ^ 2 + (pos.2 - target.2) ^ 2

/-- The current state of the game, from `GameState.__init__`
(`selected_piece`, `elapsed_time` and `game_mode` are not read by any
claim and are omitted; the mode is a parameter of the loop model). -/
structure GameState where
  grid_size : Nat × Nat
  pieces : List JigsawPiece
  is_completed : Bool
  is_failed : Bool
  move_count : Nat
deriving Repr, DecidableEq

/-- `GameState.check_completion`: walks the pieces; any piece not placed
sets `is_completed := false` and returns `false`, otherwise sets
`is_completed := true` and returns `true`
(`is_in_correct_position` just returns `is_placed`). -/
def check_completion (gs : GameState) : GameState × Bool :=
  if gs.pieces.all (fun p => p.is_placed) then
    ({ gs with is_completed := true }, true)
  else
    ({ gs with is_completed := false }, false)

/-- `GameState.completion_percentage`: `0.0` on an empty piece list, else
`(placed / total) * 100`; exact rational arithmetic in place of `float`. -/
def completion_percentage (gs : GameState) : Rat :=
  if gs.pieces = [] then 0
  else ((gs.pieces.countP (fun p => p.is_placed) : Rat) / (gs.pieces.length : Rat)) * 100

/-- The drag handler, from `DragHandler.__init__`.  `dragged_piece` is the
index of the dragged piece inside `game_state.pieces` (the Python object
reference), `none` when no drag is active. -/
structure DragHandler where
  game_state : GameState
  snap_threshold : Nat
  dragged_piece : Option Nat
  drag_offset : Int × Int
  max_z_index : Int
deriving Repr, DecidableEq

/-- `DragHandler.check_snap_to_grid`: returns `false` when the piece has no
pixel position, is already placed, or has no `target_pixel_position`;
otherwise, when the distance to the target is at most the threshold, moves
the piece exactly onto the target, marks it placed and returns `true`.
The float comparison `distance <= snap_threshold` is embedded as
`distance_sq pos target ≤ snap_threshold ^ 2`, equivalent for a
nonnegative threshold. -/
def check_snap_to_grid (snap_threshold : Nat) (piece : JigsawPiece) :
    JigsawPiece × Bool :=
  match piece.pixel_position with
  | none => (piece, false)
  | some pos =>
    if piece.is_placed then (piece, false)
    else
      match piece.target_pixel_position with
      | none => (piece, false)
      | some target =>
        if distance_sq pos target ≤ (snap_threshold : Int) ^ 2 then
          ({ piece with pixel_position := some target, is_placed := true }, true)
        else
          (piece, false)

/-- `DragHandler.start_drag`: a `None` piece returns immediately; otherwise
the piece becomes the dragged piece, its `is_dragging` flag is set, the
mouse offset is recorded (`(0, 0)` when the piece has no position yet),
`_max_z_index` is incremented and assigned to the piece. -/
def start_drag (h : DragHandler) (piece : Option Nat) (mouse_pos : Int × Int) :
    DragHandler :=
  match piece with
  | none => h
  | some i =>
    match h.game_state.pieces[i]? with
    | none => h
    | some p =>
      let offset :=
        match p.pixel_position with
        | some pos => (mouse_pos.1 - pos.1, mouse_pos.2 - pos.2)
        | none => ((0 : Int), (0 : Int))
      { h with
        dragged_piece := some i
        drag_offset := offset
        max_z_index := h.max_z_index + 1
        game_state := { h.game_state with
          pieces := h.game_state.pieces.set i
            { p with is_dragging := true, z_index := h.max_z_index + 1 } } }

/-- `DragHandler.update_drag`: no active drag is a no-op; otherwise the
dragged piece moves to the mouse position minus the recorded offset. -/
def update_drag (h : DragHandler) (mouse_pos : Int × Int) : DragHandler :=
  match h.dragged_piece with
  | none => h
  | some i =>
    match h.game_state.pieces[i]? with
    | none => h
    | some p =>
      let new_pos : Int × Int :=
        (mouse_pos.1 - h.drag_offset.1, mouse_pos.2 - h.drag_offset.2)
      { h with
        game_state := { h.game_state with
          pieces := h.game_state.pieces.set i
            { p with pixel_position := some new_pos } } }

/-- `DragHandler.end_drag`: no active drag returns `false`; otherwise the
snap check runs on the dragged piece, the piece stops dragging, the handler
forgets the drag, and the snap result is returned. -/
def end_drag (h : DragHandler) : DragHandler × Bool :=
  match h.dragged_piece with
  | none => (h, false)
  | some i =>
    match h.game_state.pieces[i]? with
    | none => ({ h with dragged_piece := none, drag_offset := (0, 0) }, false)
    | some p =>
      let r := check_snap_to_grid h.snap_threshold p
      ({ h with
          dragged_piece := none
          drag_offset := (0, 0)
          game_state := { h.game_state with
            pieces := h.game_state.pieces.set i { r.1 with is_dragging := false } } },
        r.2)

/-- `DragHandler.cancel_drag`: clears the dragged piece's flag and forgets
the drag; a no-op when no drag is active. -/
def cancel_drag (h : DragHandler) : DragHandler :=
  match h.dragged_piece with
  | none => h
  | some i =>
    match h.game_state.pieces[i]? with
    | none => { h with dragged_piece := none, drag_offset := (0, 0) }
    | some p =>
      { h with
        dragged_piece := none
        drag_offset := (0, 0)
        game_state := { h.game_state with
          pieces := h.game_state.pieces.set i { p with is_dragging := false } } }

/-- Stable insert for `stable_sort`: `a` goes in front of the first element
`b` with `le a b`. -/
def sorted_insert (le : α → α → Bool) (a : α) : List α → List α
  | [] => [a]
  | b :: l => if le a b then a :: b :: l else b :: sorted_insert le a l

/-- Stable sort with respect to a total `le`.  Python's `sorted` is a
stable sort, and every stable sort produces the same list, so this models
`sorted(pieces, key=lambda p: p.z_index, reverse=True)` when instantiated
with the reversed key comparison. -/
def stable_sort (le : α → α → Bool) : List α → List α
  | [] => []
  | a :: l => sorted_insert le a (stable_sort le l)

/-- `pygame.Rect(x, y, w, h).collidepoint(px, py)`: true when the point is
inside the rectangle; points on the right or bottom edge do not count. -/
def rect_collidepoint (x y w h px py : Int) : Bool :=
  x ≤ px && px < x + w && y ≤ py && py < y + h

/-- `JigsawLogic.get_piece_at_position`: sorts the pieces by `z_index` in
descending order (stable) and returns the first one that has a pixel
position and whose rectangle contains the mouse position.  The result is
the index of that piece in `game_state.pieces` (the Python object
reference). -/
def get_piece_at_position (pieces : List JigsawPiece) (mouse_pos : Int × Int) :
    Option Nat :=
  let sorted_pieces :=
    stable_sort (fun a b => b.2.z_index ≤ a.2.z_index) pieces.enum
  let hit := sorted_pieces.find? (fun ip =>
    match ip.2.pixel_position with
    | none => false
    | some pos =>
        rect_collidepoint pos.1 pos.2 (ip.2.image.1 : Int) (ip.2.image.2 : Int)
          mouse_pos.1 mouse_pos.2)
  hit.map (fun ip => ip.1)

/-- A `pygame.Rect`, as used for the piece pool staging area. -/
structure Rect where
  x : Int
  y : Int
  w : Int
  h : Int
deriving Repr, DecidableEq

/-- Body of the loop of `JigsawLogic.scatter_pieces`, with `k` the index of
the current piece.  For piece `p` the code draws
`x = random.randint(area.x, area.x + area.w - p.width)` and similarly for
`y`; `randint(lo, hi)` raises `ValueError` when `hi < lo`, modelled as
`none`.  The drawn values are supplied by `choice` (the `randint` contract
`lo ≤ choice ≤ hi` is a hypothesis of the theorems that use it). -/
def scatter_go (area : Rect) (choice : Nat → Int × Int) :
    Nat → List JigsawPiece → Option (List JigsawPiece)
  | _, [] => some []
  | k, p :: ps =>
    if area.x + area.w - (p.image.1 : Int) < area.x ∨
        area.y + area.h - (p.image.2 : Int) < area.y then none
    else
      match scatter_go area choice (k + 1) ps with
      | none => none
      | some rest => some ({ p with pixel_position := some (choice k) } :: rest)

/-- `JigsawLogic.scatter_pieces`: gives every piece a random position
inside the piece pool area. -/
def scatter_pieces (area : Rect) (choice : Nat → Int × Int)
    (pieces : List JigsawPiece) : Option (List JigsawPiece) :=
  scatter_go area choice 0 pieces

/-- The body of the `K_n` (new game) handler in `main.py`: zero the move
count, clear `is_completed`, reset every piece's `is_placed`,
`is_dragging` and `z_index`, then re-scatter the pieces into the pool
area.  Images are untouched (no reslicing) and so is `is_failed`. -/
def new_game_reset (h : DragHandler) (area : Rect) (choice : Nat → Int × Int) :
    Option DragHandler :=
  let reset_pieces := h.game_state.pieces.map (fun p =>
    { p with is_placed := false, is_dragging := false, z_index := 0 })
  (scatter_pieces area choice reset_pieces).map (fun ps =>
    { h with game_state :=
      { h.game_state with move_count := 0, is_completed := false, pieces := ps } })

/-- Size bookkeeping of `ImageProcessor.load_image`:
`piece = (target / grid)` by floor division, `final = piece * grid`, then a
resize and a centred crop to exactly `final_w × final_h` (PIL's `crop` pads
when the box overruns, so the crop always returns the requested size).
`none` models the `ZeroDivisionError` cases: a zero grid dimension, a
source image of zero height (the `img_ratio` division), a fitted height of
zero (the `target_ratio` division), and a source width of zero in the
scale-by-width branch. -/
def load_image_fitted_size (img_w img_h target_w target_h rows cols : Nat) :
    Option (Nat × Nat) :=
  if rows = 0 ∨ cols = 0 then none
  else
    let piece_w := target_w / cols
    let piece_h := target_h / rows
    let final_w := piece_w * cols
    let final_h := piece_h * rows
    if img_h = 0 ∨ final_h = 0 then none
    else if img_w * final_h > final_w * img_h then
      some (final_w, final_h)
    else if img_w = 0 then none
    else some (final_w, final_h)

/-- `ImageProcessor.split_image`: computes `piece = size / grid` by floor
division and crops the boxes `(left, top, left + pw, top + ph)` row by row,
left to right.  Returns the crop boxes as `(left, top, right, bottom)`;
each crop yields an image of exactly `(right - left) × (bottom - top)`
pixels.  `none` models the `ZeroDivisionError` on a zero grid dimension. -/
def split_image (w h rows cols : Nat) :
    Option (List (Nat × Nat × Nat × Nat)) :=
  if cols = 0 ∨ rows = 0 then none
  else
    let pw := w / cols
    let ph := h / rows
    some ((List.range rows).flatMap (fun row =>
      (List.range cols).map (fun col =>
        (col * pw, row * ph, col * pw + pw, row * ph + ph))))

/-- The pygame events the main loop of `main.py` reacts to.  A `key_n`
event carries the staging area and the `randint` draws used by the
re-scatter. -/
inductive GameEvent where
  | mouse_down (pos : Int × Int)
  | mouse_motion (pos : Int × Int)
  | mouse_up
  | key_n (area : Rect) (choice : Nat → Int × Int)
  | key_escape

/-- One event dispatch of the main loop of `main.py`:

* `MOUSEBUTTONDOWN`: when the game is not completed, hit-test the mouse
  position; a hit on a non-placed piece starts a drag.
* `MOUSEMOTION`: with an active drag, update the dragged piece.
* `MOUSEBUTTONUP`: with an active drag, end it; on a successful placement
  increment `move_count` and run `is_puzzle_solved` (which calls
  `check_completion`, mutating `is_completed`), setting `is_completed` when
  it holds.
* `K_n`: when the game is completed, run the new-game reset; a `ValueError`
  from `randint` aborts the run, modelled as a stutter.
* `K_ESCAPE`: with an active drag, cancel it (otherwise the loop exits;
  nothing further changes the state, modelled as a stutter). -/
def process_event (h : DragHandler) : GameEvent → DragHandler
  | .mouse_down pos =>
    if h.game_state.is_completed then h
    else
      match get_piece_at_position h.game_state.pieces pos with
      | none => h
      | some i =>
        match h.game_state.pieces[i]? with
        | none => h
        | some p => if p.is_placed then h else start_drag h (some i) pos
  | .mouse_motion pos =>
    match h.dragged_piece with
    | none => h
    | some _ => update_drag h pos
  | .mouse_up =>
    match h.dragged_piece with
    | none => h
    | some _ =>
      let r := end_drag h
      if r.2 then
        let gs1 := { r.1.game_state with move_count := r.1.game_state.move_count + 1 }
        let c := check_completion gs1
        let gs2 := if c.2 then { c.1 with is_completed := true } else c.1
        { r.1 with game_state := gs2 }
      else r.1
  | .key_n area choice =>
    if h.game_state.is_completed then
      match new_game_reset h area choice with
      | none => h
      | some h2 => h2
    else h
  | .key_escape =>
    match h.dragged_piece with
    | none => h
    | some _ => cancel_drag h

/-- The per-frame game mode check of `main.py` for `challenge` mode: when
the game is not completed and `move_limit` is non-zero (Python truthiness)
and `move_count` has reached it, `is_puzzle_solved()` runs — calling
`check_completion`, which sets `is_completed` to whether every piece is
placed — and only when the puzzle is not solved are `is_completed` and
`is_failed` both set. -/
def challenge_mode_check (move_limit : Nat) (h : DragHandler) : DragHandler :=
  if h.game_state.is_completed then h
  else if move_limit ≠ 0 ∧ move_limit ≤ h.game_state.move_count then
    let c := check_completion h.game_state
    if c.2 then { h with game_state := c.1 }
    else { h with game_state := { c.1 with is_completed := true, is_failed := true } }
  else h

/-- One iteration of the main loop in challenge mode: handle the queued
events, then run the mode check. -/
def run_frame (move_limit : Nat) (h : DragHandler) (events : List GameEvent) :
    DragHandler :=
  challenge_mode_check move_limit (events.foldl process_event h)

/-- A whole challenge-mode session: fold the frames over the start state. -/
def run_frames (move_limit : Nat) (h : DragHandler)
    (frames : List (List GameEvent)) : DragHandler :=
  frames.foldl (run_frame move_limit) h

/-- A call on the drag handler, for reasoning about arbitrary call
sequences: the four `DragHandler` methods and the new-game reset of
`main.py` (`new_game` carries the staging area and the `randint` draws). -/
inductive HandlerOp where
  | start (piece : Option Nat) (mouse : Int × Int)
  | update (mouse : Int × Int)
  | finish
  | cancel
  | new_game (area : Rect) (choice : Nat → Int × Int)

/-- Execute one handler call (`finish` is `end_drag`, discarding the
returned flag; a `ValueError` inside `new_game` aborts the run, modelled
as a stutter). -/
def exec_op (h : DragHandler) : HandlerOp → DragHandler
  | .start p m => start_drag h p m
  | .update m => update_drag h m
  | .finish => (end_drag h).1
  | .cancel => cancel_drag h
  | .new_game area choice =>
    match new_game_reset h area choice with
    | none => h
    | some h2 => h2

/-- Run a sequence of handler calls. -/
def exec_ops (h : DragHandler) : List HandlerOp → DragHandler
  | [] => h
  | op :: ops => exec_ops (exec_op h op) ops

/-- The `z_index` values a single handler call assigns: a `start_drag` on
an actual piece assigns `_max_z_index + 1`, every other call assigns
nothing. -/
def z_assign_here (h : DragHandler) : HandlerOp → List Int
  | .start (some i) _ =>
    if i < h.game_state.pieces.length then [h.max_z_index + 1] else []
  | _ => []

/-- The `z_index` values assigned by the `start_drag` calls of a call
sequence, in call order. -/
def z_assigned (h : DragHandler) : List HandlerOp → List Int
  | [] => []
  | op :: ops => z_assign_here h op ++ z_assigned (exec_op h op) ops

/-- A call sequence is guarded when every `start_drag` on an actual piece
happens while no drag is active and names a piece of the registry (as the
`MOUSEBUTTONDOWN` flow of `main.py` does when down and up events
alternate). -/
def ok_run (h : DragHandler) : List HandlerOp → Bool
  | [] => true
  | op :: ops =>
    (match op with
     | .start (some i) _ =>
       (h.dragged_piece == none) && (i < h.game_state.pieces.length)
     | _ => true) && ok_run (exec_op h op) ops

/-- The drag bookkeeping is consistent: every piece whose `is_dragging`
flag is set is the piece recorded in `dragged_piece` (so at most one piece
can be dragging). -/
def DragFlagConsistent (h : DragHandler) : Prop :=
  ∀ (i : Nat) (p : JigsawPiece), h.game_state.pieces[i]? = some p →
    p.is_dragging = true → h.dragged_piece = some i

/-- Updating one list entry trades its contribution to `countP` for the
new entry's contribution. -/
theorem countP_set_eq (p : α → Bool) :
    ∀ (l : List α) (i : Nat) (a b : α), l[i]? = some b →
      (l.set i a).countP p + (if p b then 1 else 0) =
        l.countP p + (if p a then 1 else 0) := by
  intro l
  induction l with
  | nil => intro i a b hb; simp at hb
  | cons x t ih =>
    intro i a b hb
    cases i with
    | zero =>
      simp only [List.getElem?_cons_zero, Option.some_inj] at hb
      subst hb
      simp [List.countP_cons]
      omega
    | succ j =>
      simp only [List.getElem?_cons_succ] at hb
      simp only [List.set_cons_succ, List.countP_cons]
      have := ih j a b hb
      omega

/-- A list in which every entry satisfying `p` sits at the one index that a
fixed option points at (shifted by `k`) has at most one such entry. -/
theorem countP_le_one_of_unique (p : α → Bool) :
    ∀ (l : List α) (o : Option Nat) (k : Nat),
      (∀ (i : Nat) (a : α), l[i]? = some a → p a = true → o = some (k + i)) →
      l.countP p ≤ 1 := by
  intro l
  induction l with
  | nil => intro o k _; simp
  | cons x t ih =>
    intro o k hu
    by_cases hx : p x = true
    · have ho : o = some k := by
        have := hu 0 x (by simp) hx
        simpa using this
      have ht : t.countP p = 0 := by
        rw [List.countP_eq_zero]
        intro b hb hpb
        obtain ⟨⟨i, hilt⟩, hget⟩ := List.mem_iff_get.mp hb
        have hbi : t[i]? = some b := by
          rw [List.getElem?_eq_some]
          exact ⟨hilt, hget⟩
        have h2 := hu (i + 1) b (by simpa using hbi) hpb
        rw [ho] at h2
        simp at h2
      rw [List.countP_cons, ht]
      simp [hx]
    · have hx0 : p x = false := by simpa using hx
      have hrec := ih o (k + 1) (fun i a ha hpa => by
        have := hu (i + 1) a (by simpa using ha) hpa
        simpa [Nat.add_assoc, Nat.add_comm 1 i] using this)
      rw [List.countP_cons]
      simp [hx0]
      exact hrec

/-- The snap check marks an unplaced piece placed exactly when it returns
`true`, and returns the piece unchanged when it returns `false`. -/
theorem check_snap_flags (t : Nat) (p : JigsawPiece) :
    ((check_snap_to_grid t p).2 = true →
      p.is_placed = false ∧ (check_snap_to_grid t p).1.is_placed = true) ∧
    ((check_snap_to_grid t p).2 = false → (check_snap_to_grid t p).1 = p) := by
  unfold check_snap_to_grid
  cases hpp : p.pixel_position with
  | none => simp
  | some pos =>
    by_cases hp : p.is_placed
    · simp [hp]
    · cases ht : p.target_pixel_position with
      | none => simp [hp]
      | some target =>
        by_cases hd : distance_sq pos target ≤ (t : Int) ^ 2
        · simp [hp, hd]
        · simp [hp, hd]

/-- Elementwise description of a successful `scatter_go` run: the result
has the same length and every piece is the input piece moved to the drawn
position. -/
theorem scatter_go_spec (area : Rect) (choice : Nat → Int × Int) :
    ∀ (ps : List JigsawPiece) (k : Nat) (qs : List JigsawPiece),
      scatter_go area choice k ps = some qs →
      qs.length = ps.length ∧
      ∀ (i : Nat) (p : JigsawPiece), ps[i]? = some p →
        qs[i]? = some { p with pixel_position := some (choice (k + i)) } := by
  intro ps
  induction ps with
  | nil =>
    intro k qs h
    simp only [scatter_go, Option.some_inj] at h
    subst h
    constructor
    · rfl
    · intro i p hp; simp at hp
  | cons p ps ih =>
    intro k qs h
    simp only [scatter_go] at h
    split at h
    · exact absurd h (by simp)
    · cases hrec : scatter_go area choice (k + 1) ps with
      | none => rw [hrec] at h; exact absurd h (by simp)
      | some rest =>
        rw [hrec] at h
        simp only [Option.some_inj] at h
        subst h
        obtain ⟨hlen, hidx⟩ := ih (k + 1) rest hrec
        refine ⟨by simp [hlen], ?_⟩
        intro i q hq
        cases i with
        | zero =>
          simp only [List.getElem?_cons_zero, Option.some_inj] at hq
          subst hq
          simp
        | succ j =>
          simp only [List.getElem?_cons_succ] at hq ⊢
          have := hidx j q hq
          simpa [Nat.add_assoc, Nat.add_comm 1 j] using this

/-- `scatter_go` succeeds whenever every piece fits inside the area. -/
theorem scatter_go_total (area : Rect) (choice : Nat → Int × Int) :
    ∀ (ps : List JigsawPiece) (k : Nat),
      (∀ p ∈ ps, (p.image.1 : Int) ≤ area.w ∧ (p.image.2 : Int) ≤ area.h) →
      ∃ qs, scatter_go area choice k ps = some qs := by
  intro ps
  induction ps with
  | nil => intro k _; exact ⟨[], rfl⟩
  | cons p ps ih =>
    intro k hfit
    obtain ⟨hw, hh⟩ := hfit p (by simp)
    obtain ⟨rest, hrest⟩ := ih (k + 1) (fun q hq => hfit q (by simp [hq]))
    have hstep : scatter_go area choice k (p :: ps) =
        some ({ p with pixel_position := some (choice k) } :: rest) := by
      simp only [scatter_go]
      rw [if_neg (by omega), hrest]
    exact ⟨_, hstep⟩

/-- Field-level description of a successful new-game reset: the move count
is zeroed, `is_completed` is cleared, `is_failed` and the handler's drag
fields are untouched, and every piece keeps its image and identity while
its flags, `z_index` and position are reset and re-scattered. -/
theorem new_game_reset_fields (h h2 : DragHandler) (area : Rect)
    (choice : Nat → Int × Int)
    (hok : new_game_reset h area choice = some h2) :
    h2.snap_threshold = h.snap_threshold ∧
    h2.dragged_piece = h.dragged_piece ∧
    h2.max_z_index = h.max_z_index ∧
    h2.game_state.move_count = 0 ∧
    h2.game_state.is_completed = false ∧
    h2.game_state.is_failed = h.game_state.is_failed ∧
    h2.game_state.pieces.length = h.game_state.pieces.length ∧
    ∀ (i : Nat) (p : JigsawPiece), h.game_state.pieces[i]? = some p →
      h2.game_state.pieces[i]? = some { p with
        is_placed := false
        is_dragging := false
        z_index := 0
        pixel_position := some (choice i) } := by
  simp only [new_game_reset, Option.map_eq_some'] at hok
  obtain ⟨ps, hsc, hok⟩ := hok
  subst hok
  obtain ⟨hlen, hidx⟩ := scatter_go_spec area choice _ 0 ps hsc
  refine ⟨rfl, rfl, rfl, rfl, rfl, rfl, by simpa using hlen, ?_⟩
  intro i p hp
  have hmap : (h.game_state.pieces.map (fun q =>
      { q with is_placed := false, is_dragging := false, z_index := 0 }))[i]? =
      some { p with is_placed := false, is_dragging := false, z_index := 0 } := by
    rw [List.getElem?_map, hp]
    rfl
  have := hidx i _ hmap
  simpa using this

/-- A small piece used to build concrete states. -/
def base_piece : JigsawPiece :=
  { image := (20, 20)
    original_position := (0, 0)
    pixel_position := none
    piece_id := 0
    is_dragging := false
    is_placed := false
    z_index := 0
    target_pixel_position := none }

/-- An empty game state used to build concrete states. -/
def base_gs : GameState :=
  { grid_size := (2, 2)
    pieces := []
    is_completed := false
    is_failed := false
    move_count := 0 }

/-- An idle handler over `base_gs`. -/
def base_handler : DragHandler :=
  { game_state := base_gs
    snap_threshold := 40
    dragged_piece := none
    drag_offset := (0, 0)
    max_z_index := 0 }

/-- C1: the snap check is a no-op returning `false` on a placed piece and
on a piece with unset pixel or target position; otherwise a piece within
the snap threshold of its target (threshold `t`, compared on squared
distances, equivalent to `distance ≤ t` for the Euclidean distance) is
moved exactly onto the target, marked placed, and `true` is returned,
while a piece beyond the threshold is left unchanged with `false`. -/
theorem check_snap_spec (t : Nat) (p : JigsawPiece) :
    (p.is_placed = true → check_snap_to_grid t p = (p, false)) ∧
    (p.pixel_position = none ∨ p.target_pixel_position = none →
      check_snap_to_grid t p = (p, false)) ∧
    (∀ pos target, p.is_placed = false → p.pixel_position = some pos →
      p.target_pixel_position = some target →
      ((distance_sq pos target ≤ (t : Int) ^ 2 →
          check_snap_to_grid t p =
            ({ p with pixel_position := some target, is_placed := true }, true)) ∧
        (¬ distance_sq pos target ≤ (t : Int) ^ 2 →
          check_snap_to_grid t p = (p, false)))) := by
  refine ⟨?_, ?_, ?_⟩
  · intro hp
    cases hpp : p.pixel_position with
    | none => simp [check_snap_to_grid, hpp]
    | some pos => simp [check_snap_to_grid, hpp, hp]
  · intro hor
    rcases hor with hpp | ht
    · simp [check_snap_to_grid, hpp]
    · cases hpp : p.pixel_position with
      | none => simp [check_snap_to_grid, hpp]
      | some pos =>
        by_cases hp : p.is_placed <;>
          simp [check_snap_to_grid, hpp, hp, ht]
  · intro pos target hp hpp ht
    constructor
    · intro hd
      simp [check_snap_to_grid, hpp, hp, ht, hd]
    · intro hd
      simp [check_snap_to_grid, hpp, hp, ht, hd]

/-- A free piece sitting at `(110, 95)`, 5 by 11 pixels away from its
target `(100, 100)`. -/
def snap_piece : JigsawPiece :=
  { base_piece with
    pixel_position := some (110, 95)
    target_pixel_position := some (100, 100) }

/-- Witness for `check_snap_spec`: the concrete piece at distance
`sqrt 50 ≤ 40` from its target snaps onto it. -/
theorem check_snap_spec_witness :
    snap_piece.is_placed = false ∧
    distance_sq (110, 95) (100, 100) ≤ (40 : Int) ^ 2 ∧
    check_snap_to_grid 40 snap_piece =
      ({ snap_piece with pixel_position := some (100, 100), is_placed := true },
        true) :=
  ⟨rfl, by decide,
    ((check_snap_spec 40 snap_piece).2.2 (110, 95) (100, 100) rfl rfl rfl).1
      (by decide)⟩

/-- C8: spurious interaction calls are well-defined no-ops: `start_drag`
with no piece leaves the handler (hence every piece) unchanged, and with
no active drag `update_drag` changes nothing and `end_drag` changes
nothing and returns `false`. -/
theorem spurious_calls_noop (h : DragHandler) (mouse : Int × Int) :
    start_drag h none mouse = h ∧
    (h.dragged_piece = none →
      update_drag h mouse = h ∧ end_drag h = (h, false)) := by
  refine ⟨rfl, fun hd => ⟨?_, ?_⟩⟩
  · simp [update_drag, hd]
  · simp [end_drag, hd]

/-- Witness for `spurious_calls_noop` on a concrete idle handler. -/
theorem spurious_calls_noop_witness :
    base_handler.dragged_piece = none ∧
    update_drag base_handler (5, 5) = base_handler ∧
    end_drag base_handler = (base_handler, false) :=
  ⟨rfl, (spurious_calls_noop base_handler (5, 5)).2 rfl⟩

/-- C10: on an empty piece set `check_completion` returns `true` and sets
`is_completed`, while `completion_percentage` returns `0`: an empty
session reports completed and 0% complete at the same time. -/
theorem empty_session_completed_zero_percent (gs : GameState)
    (hempty : gs.pieces = []) :
    check_completion gs = ({ gs with is_completed := true }, true) ∧
    completion_percentage gs = 0 := by
  constructor
  · simp [check_completion, hempty]
  · simp [completion_percentage, hempty]

/-- Witness for `empty_session_completed_zero_percent` on the concrete
empty session. -/
theorem empty_session_completed_zero_percent_witness :
    base_gs.pieces = [] ∧
    check_completion base_gs = ({ base_gs with is_completed := true }, true) ∧
    completion_percentage base_gs = 0 :=
  ⟨rfl, empty_session_completed_zero_percent base_gs rfl⟩

/-- A free piece at the origin. -/
def piece_at_origin : JigsawPiece :=
  { base_piece with pixel_position := some (0, 0) }

/-- A second free piece at `(50, 0)`. -/
def piece_at_fifty : JigsawPiece :=
  { base_piece with piece_id := 1, pixel_position := some (50, 0) }

/-- A handler holding two free pieces with positions. -/
def two_piece_handler : DragHandler :=
  { base_handler with
    game_state := { base_gs with pieces := [piece_at_origin, piece_at_fifty] } }

/-- C2 counterexample: two consecutive `start_drag` calls (a second
`MOUSEBUTTONDOWN` arriving during an active drag) leave two pieces with
`is_dragging = true`, because `start_drag` never clears the flag of the
previously dragged piece. -/
theorem two_start_drags_double_drag :
    ((exec_ops two_piece_handler
        [HandlerOp.start (some 0) (0, 0), HandlerOp.start (some 1) (50, 0)]
      ).game_state.pieces.countP (fun p => p.is_dragging)) = 2 := by decide

/-- A placed piece at the origin, drawn on top (`z_index = 5`). -/
def placed_top_piece : JigsawPiece :=
  { base_piece with pixel_position := some (0, 0), is_placed := true, z_index := 5 }

/-- A free piece underneath, covering the same point. -/
def free_under_piece : JigsawPiece :=
  { base_piece with piece_id := 1, pixel_position := some (0, 0) }

/-- A placed piece covering the point `(10, 10)` on top of a free piece
covering the same point. -/
def overlap_handler : DragHandler :=
  { base_handler with
    game_state := { base_gs with pieces := [placed_top_piece, free_under_piece] } }

/-- C3 counterexample: the hit test resolves to the placed piece (it does
not exclude placed pieces), and a `MOUSEBUTTONDOWN` at that point starts
no drag at all even though a free piece lies underneath — the placed piece
on top blocks picking it. -/
theorem hit_test_returns_placed_piece :
    get_piece_at_position overlap_handler.game_state.pieces (10, 10) = some 0 ∧
    (overlap_handler.game_state.pieces.countP (fun p => p.is_placed = false)) = 1 ∧
    process_event overlap_handler (GameEvent.mouse_down (10, 10)) =
      overlap_handler := by decide

/-- A session that failed in challenge mode: completed-and-failed flags
set, one free piece. -/
def failed_handler : DragHandler :=
  { base_handler with
    game_state :=
      { base_gs with pieces := [base_piece], is_completed := true, is_failed := true } }

/-- A 100 by 100 staging area at the origin. -/
def area100 : Rect := { x := 0, y := 0, w := 100, h := 100 }

/-- C4 counterexample: the new-game reset leaves `is_failed` set — the
`K_n` handler of `main.py` resets `move_count`, `is_completed` and the
pieces but never touches `is_failed`. -/
theorem new_game_keeps_is_failed :
    failed_handler.game_state.is_failed = true ∧
    (new_game_reset failed_handler area100 (fun _ => (0, 0))).map
        (fun h2 => h2.game_state.is_failed) = some true := by decide

/-- C5 counterexample: with grid `(2, 3)` and a 100 by 1 target rectangle
the per-piece height floors to `0`, the fitted height is `0`, and
`load_image_fitted_size` has no result — the code raises
`ZeroDivisionError` computing `target_ratio` instead of producing a fitted
image. -/
theorem load_image_zero_height_error :
    load_image_fitted_size 100 100 100 1 2 3 = none := by decide

/-- C9 counterexample: a 20 by 20 piece scattered into a 10 by 10 pool
makes `random.randint` receive an empty range and raise `ValueError` —
the scatter call does not succeed. -/
theorem scatter_oversized_piece_error :
    scatter_pieces { x := 0, y := 0, w := 10, h := 10 } (fun _ => (0, 0))
      [base_piece] = none := by decide

/-- C4 (amended): the new-game reset zeroes `move_count`, clears
`is_completed`, resets every piece's `is_placed`, `is_dragging` and
`z_index` to their initial values and re-scatters the pieces into the
staging area, leaving every piece's image (and every other field)
unchanged — but it leaves `is_failed` unchanged rather than clearing it. -/
theorem new_game_reset_spec (h h2 : DragHandler) (area : Rect)
    (choice : Nat → Int × Int)
    (hok : new_game_reset h area choice = some h2) :
    h2.game_state.move_count = 0 ∧
    h2.game_state.is_completed = false ∧
    h2.game_state.is_failed = h.game_state.is_failed ∧
    h2.game_state.pieces.length = h.game_state.pieces.length ∧
    ∀ (i : Nat) (p : JigsawPiece), h.game_state.pieces[i]? = some p →
      h2.game_state.pieces[i]? = some { p with
        is_placed := false
        is_dragging := false
        z_index := 0
        pixel_position := some (choice i) } := by
  obtain ⟨-, -, -, hm, hc, hf, hl, hidx⟩ := new_game_reset_fields h h2 area choice hok
  exact ⟨hm, hc, hf, hl, hidx⟩

/-- Witness for `new_game_reset_spec` on the concrete failed session. -/
theorem new_game_reset_spec_witness :
    ∃ h2, new_game_reset failed_handler area100 (fun _ => (3, 4)) = some h2 ∧
      h2.game_state.move_count = 0 ∧
      h2.game_state.is_completed = false ∧
      h2.game_state.is_failed = true := by
  obtain ⟨h2, hok⟩ :
      ∃ h2, new_game_reset failed_handler area100 (fun _ => (3, 4)) = some h2 :=
    ⟨_, rfl⟩
  have hs := new_game_reset_spec failed_handler h2 area100 (fun _ => (3, 4)) hok
  exact ⟨h2, hok, hs.1, hs.2.1, hs.2.2.1.trans (by decide)⟩

/-- C9 (amended): when every piece fits inside the staging area, the
scatter succeeds for every admissible draw of the `randint` values (the
`randint` contract is the `hchoice` hypothesis), and afterwards every
piece has a pixel position whose axis-aligned rectangle lies entirely
within the staging area. -/
theorem scatter_within_bounds (area : Rect) (choice : Nat → Int × Int)
    (pieces : List JigsawPiece)
    (hfit : ∀ p ∈ pieces, (p.image.1 : Int) ≤ area.w ∧ (p.image.2 : Int) ≤ area.h)
    (hchoice : ∀ (i : Nat) (p : JigsawPiece), pieces[i]? = some p →
      area.x ≤ (choice i).1 ∧ (choice i).1 ≤ area.x + area.w - (p.image.1 : Int) ∧
      area.y ≤ (choice i).2 ∧ (choice i).2 ≤ area.y + area.h - (p.image.2 : Int)) :
    ∃ qs, scatter_pieces area choice pieces = some qs ∧
      qs.length = pieces.length ∧
      ∀ (i : Nat) (q : JigsawPiece), qs[i]? = some q →
        ∃ x y, q.pixel_position = some (x, y) ∧
          area.x ≤ x ∧ x + (q.image.1 : Int) ≤ area.x + area.w ∧
          area.y ≤ y ∧ y + (q.image.2 : Int) ≤ area.y + area.h := by
  obtain ⟨qs, hqs⟩ := scatter_go_total area choice pieces 0 hfit
  obtain ⟨hlen, hidx⟩ := scatter_go_spec area choice pieces 0 qs hqs
  refine ⟨qs, hqs, hlen, ?_⟩
  intro i q hq
  have hi : i < qs.length := (List.getElem?_eq_some.mp hq).1
  have hip : i < pieces.length := by rw [hlen] at hi; exact hi
  have hp : pieces[i]? = some pieces[i] := List.getElem?_eq_getElem hip
  have hqi := hidx i _ hp
  rw [hq] at hqi
  have hq2 : q = { pieces[i] with pixel_position := some (choice (0 + i)) } :=
    Option.some_inj.mp hqi
  obtain ⟨hc1, hc2, hc3, hc4⟩ := hchoice i _ hp
  refine ⟨(choice i).1, (choice i).2, ?_, hc1, ?_, hc3, ?_⟩
  · rw [hq2]; simp
  · rw [hq2]; simp; omega
  · rw [hq2]; simp; omega

/-- Witness for `scatter_within_bounds`: one 20 by 20 piece scattered to
`(3, 4)` inside the 100 by 100 pool. -/
theorem scatter_within_bounds_witness :
    ∃ qs, scatter_pieces area100 (fun _ => (3, 4)) [base_piece] = some qs ∧
      qs.length = 1 ∧
      ∀ (i : Nat) (q : JigsawPiece), qs[i]? = some q →
        ∃ x y, q.pixel_position = some (x, y) ∧
          area100.x ≤ x ∧ x + (q.image.1 : Int) ≤ area100.x + area100.w ∧
          area100.y ≤ y ∧ y + (q.image.2 : Int) ≤ area100.y + area100.h := by
  have hfit : ∀ p ∈ [base_piece],
      (p.image.1 : Int) ≤ area100.w ∧ (p.image.2 : Int) ≤ area100.h := by
    intro p hp
    rw [List.mem_singleton] at hp
    subst hp
    exact ⟨by decide, by decide⟩
  have hchoice : ∀ (i : Nat) (p : JigsawPiece), [base_piece][i]? = some p →
      area100.x ≤ ((fun _ : Nat => ((3 : Int), (4 : Int))) i).1 ∧
      ((fun _ : Nat => ((3 : Int), (4 : Int))) i).1 ≤
        area100.x + area100.w - (p.image.1 : Int) ∧
      area100.y ≤ ((fun _ : Nat => ((3 : Int), (4 : Int))) i).2 ∧
      ((fun _ : Nat => ((3 : Int), (4 : Int))) i).2 ≤
        area100.y + area100.h - (p.image.2 : Int) := by
    intro i p hp
    cases i with
    | zero =>
      simp only [List.getElem?_cons_zero, Option.some_inj] at hp
      subst hp
      exact ⟨by decide, by decide, by decide, by decide⟩
    | succ j => simp at hp
  simpa using scatter_within_bounds area100 (fun _ => (3, 4)) [base_piece] hfit hchoice

/-- A handler holding one free piece covering the point `(10, 10)`. -/
def free_handler : DragHandler :=
  { base_handler with game_state := { base_gs with pieces := [piece_at_origin] } }

/-- C3 (amended): the hit test itself does not exclude placed pieces, but
the `MOUSEBUTTONDOWN` flow of `main.py` checks `is_placed` before calling
`start_drag`, so whenever a mouse-down turns an idle handler into one with
a drag target, that target is a non-placed piece — a placed piece can
never become the drag target (though one lying on top still blocks the
pieces beneath it, see the counterexample). -/
theorem mouse_down_never_drags_placed (h : DragHandler) (pos : Int × Int) (i : Nat)
    (hidle : h.dragged_piece = none)
    (hdrag : (process_event h (GameEvent.mouse_down pos)).dragged_piece = some i) :
    ∃ p, h.game_state.pieces[i]? = some p ∧ p.is_placed = false := by
  simp only [process_event] at hdrag
  by_cases hc : h.game_state.is_completed = true
  · rw [if_pos hc, hidle] at hdrag
    exact Option.noConfusion hdrag
  · rw [if_neg hc] at hdrag
    split at hdrag
    · rw [hidle] at hdrag
      exact Option.noConfusion hdrag
    · rename_i j hhit
      split at hdrag
      · rw [hidle] at hdrag
        exact Option.noConfusion hdrag
      · rename_i p hpj
        split at hdrag
        · rw [hidle] at hdrag
          exact Option.noConfusion hdrag
        · rename_i hp
          simp only [start_drag, hpj] at hdrag
          have hji : j = i := by simpa using hdrag
          subst hji
          exact ⟨p, hpj, by simpa using hp⟩

/-- Witness for `mouse_down_never_drags_placed`: a mouse-down on the
concrete free piece starts a drag on it, and it is indeed not placed. -/
theorem mouse_down_never_drags_placed_witness :
    (process_event free_handler (GameEvent.mouse_down (10, 10))).dragged_piece =
      some 0 ∧
    ∃ p, free_handler.game_state.pieces[0]? = some p ∧ p.is_placed = false :=
  ⟨by decide, mouse_down_never_drags_placed free_handler (10, 10) 0 rfl (by decide)⟩

/-- No handler call ever decreases `_max_z_index`. -/
theorem exec_op_max_z_mono (h : DragHandler) (op : HandlerOp) :
    h.max_z_index ≤ (exec_op h op).max_z_index := by
  cases op with
  | start piece m =>
    cases piece with
    | none => simp [exec_op, start_drag]
    | some i =>
      cases hpi : h.game_state.pieces[i]? with
      | none => simp [exec_op, start_drag, hpi]
      | some p =>
        simp only [exec_op, start_drag, hpi]
        omega
  | update m =>
    cases hd : h.dragged_piece with
    | none => simp [exec_op, update_drag, hd]
    | some i =>
      cases hpi : h.game_state.pieces[i]? with
      | none => simp [exec_op, update_drag, hd, hpi]
      | some p => simp [exec_op, update_drag, hd, hpi]
  | finish =>
    cases hd : h.dragged_piece with
    | none => simp [exec_op, end_drag, hd]
    | some i =>
      cases hpi : h.game_state.pieces[i]? with
      | none => simp [exec_op, end_drag, hd, hpi]
      | some p => simp [exec_op, end_drag, hd, hpi]
  | cancel =>
    cases hd : h.dragged_piece with
    | none => simp [exec_op, cancel_drag, hd]
    | some i =>
      cases hpi : h.game_state.pieces[i]? with
      | none => simp [exec_op, cancel_drag, hd, hpi]
      | some p => simp [exec_op, cancel_drag, hd, hpi]
  | new_game area choice =>
    cases hng : new_game_reset h area choice with
    | none => simp [exec_op, hng]
    | some h2 =>
      obtain ⟨-, -, hmz, -⟩ := new_game_reset_fields h h2 area choice hng
      simp [exec_op, hng, hmz]

/-- Every `z_index` value assigned during a call sequence exceeds the
`_max_z_index` the handler started from. -/
theorem z_assigned_lt (ops : List HandlerOp) :
    ∀ (h : DragHandler) (x : Int), x ∈ z_assigned h ops → h.max_z_index < x := by
  induction ops with
  | nil => intro h x hx; simp [z_assigned] at hx
  | cons op ops ih =>
    intro h x hx
    simp only [z_assigned, List.mem_append] at hx
    rcases hx with hx | hx
    · cases op with
      | start piece m =>
        cases piece with
        | none => simp [z_assign_here] at hx
        | some i =>
          by_cases hlt : i < h.game_state.pieces.length
          · rw [z_assign_here, if_pos hlt] at hx
            simp at hx
            omega
          · rw [z_assign_here, if_neg hlt] at hx
            simp at hx
      | update m => simp [z_assign_here] at hx
      | finish => simp [z_assign_here] at hx
      | cancel => simp [z_assign_here] at hx
      | new_game area choice => simp [z_assign_here] at hx
    · have hrec := ih (exec_op h op) x hx
      have hmono := exec_op_max_z_mono h op
      omega

/-- C7: across any call sequence on a handler — `start_drag`,
`update_drag`, `end_drag`, `cancel_drag` and new-game resets included —
the `z_index` values assigned by the `start_drag` calls are strictly
increasing: each is strictly greater than every previously assigned one
(the reset zeroes the pieces' `z_index` fields but not `_max_z_index`). -/
theorem z_assignments_strict_mono (h : DragHandler) (ops : List HandlerOp) :
    (z_assigned h ops).Pairwise (· < ·) := by
  induction ops generalizing h with
  | nil => simp [z_assigned]
  | cons op ops ih =>
    simp only [z_assigned]
    rw [List.pairwise_append]
    refine ⟨?_, ih (exec_op h op), ?_⟩
    · cases op with
      | start piece m =>
        cases piece with
        | none => simp [z_assign_here]
        | some i =>
          rw [z_assign_here]
          split <;> simp
      | update m => simp [z_assign_here]
      | finish => simp [z_assign_here]
      | cancel => simp [z_assign_here]
      | new_game area choice => simp [z_assign_here]
    · intro a ha b hb
      have hblt := z_assigned_lt ops (exec_op h op) b hb
      cases op with
      | start piece m =>
        cases piece with
        | none => simp [z_assign_here] at ha
        | some i =>
          by_cases hlt : i < h.game_state.pieces.length
          · rw [z_assign_here, if_pos hlt] at ha
            simp at ha
            subst ha
            have hp : h.game_state.pieces[i]? = some h.game_state.pieces[i] :=
              List.getElem?_eq_getElem hlt
            have hmax :
                (exec_op h (HandlerOp.start (some i) m)).max_z_index =
                  h.max_z_index + 1 := by
              simp [exec_op, start_drag, hp]
            omega
          · rw [z_assign_here, if_neg hlt] at ha
            simp at ha
      | update m => simp [z_assign_here] at ha
      | finish => simp [z_assign_here] at ha
      | cancel => simp [z_assign_here] at ha
      | new_game area choice => simp [z_assign_here] at ha

/-- The nested row/column loop of `split_image` enumerates the row-major
sequence: concatenating the per-row lists equals mapping over a single
`0 ≤ k < rows * cols` range with `row = k / cols`, `col = k % cols`. -/
theorem flatMap_range_map (cols : Nat) (hc : 0 < cols) (f : Nat → Nat → α) :
    ∀ rows, (List.range rows).flatMap (fun row => (List.range cols).map (f row)) =
      (List.range (rows * cols)).map (fun k => f (k / cols) (k % cols)) := by
  intro rows
  induction rows with
  | zero => simp
  | succ r ih =>
    rw [List.range_succ, List.flatMap_append, ih]
    have hmul : (r + 1) * cols = r * cols + cols := by ring
    rw [hmul, List.range_add, List.map_append, List.map_map]
    congr 1
    simp only [List.flatMap_cons, List.flatMap_nil, List.append_nil]
    apply List.map_congr_left
    intro x hx
    have hxc : x < cols := List.mem_range.mp hx
    have h1 : (r * cols + x) / cols = r + x / cols := by
      rw [Nat.mul_comm r cols]
      exact Nat.mul_add_div hc r x
    have h2 : (r * cols + x) % cols = x % cols := by
      rw [Nat.mul_comm r cols]
      exact Nat.mul_add_mod cols r x
    simp [Function.comp, h1, h2, Nat.div_eq_of_lt hxc, Nat.mod_eq_of_lt hxc]

/-- C5 (amended): for grids with at least one row and column, a target
rectangle whose height is at least the row count (so the fitted height is
nonzero) and a nonempty source image, the slicer computes the piece size
by floor division, fits the image to exactly `pieceWidth * cols` by
`pieceHeight * rows`, and `split_image` produces exactly `rows * cols`
crop boxes in row-major order, each exactly `pieceWidth` by `pieceHeight`
(box `k` covers column `k % cols` of row `k / cols`). -/
theorem slicer_spec (img_w img_h target_w target_h rows cols : Nat)
    (hr : 0 < rows) (hc : 0 < cols) (hiw : 0 < img_w) (hih : 0 < img_h)
    (hth : rows ≤ target_h) :
    load_image_fitted_size img_w img_h target_w target_h rows cols =
      some ((target_w / cols) * cols, (target_h / rows) * rows) ∧
    ∃ boxes,
      split_image ((target_w / cols) * cols) ((target_h / rows) * rows) rows cols =
        some boxes ∧
      boxes.length = rows * cols ∧
      ∀ (k : Nat), k < rows * cols →
        boxes[k]? = some ((k % cols) * (target_w / cols),
          (k / cols) * (target_h / rows),
          (k % cols) * (target_w / cols) + (target_w / cols),
          (k / cols) * (target_h / rows) + (target_h / rows)) := by
  have hph : 0 < target_h / rows := Nat.div_pos hth hr
  have hfh : 0 < (target_h / rows) * rows := Nat.mul_pos hph hr
  constructor
  · simp only [load_image_fitted_size]
    rw [if_neg (by omega), if_neg (by omega)]
    split
    · rfl
    · rw [if_neg (by omega)]
  · have hsplit : split_image ((target_w / cols) * cols) ((target_h / rows) * rows)
        rows cols =
        some ((List.range (rows * cols)).map (fun k =>
          ((k % cols) * (target_w / cols), (k / cols) * (target_h / rows),
            (k % cols) * (target_w / cols) + (target_w / cols),
            (k / cols) * (target_h / rows) + (target_h / rows)))) := by
      simp only [split_image]
      rw [if_neg (by omega)]
      rw [Nat.mul_div_cancel _ hc, Nat.mul_div_cancel _ hr]
      rw [flatMap_range_map cols hc]
    refine ⟨_, hsplit, by simp, ?_⟩
    intro k hk
    rw [List.getElem?_map, List.getElem?_range hk]
    rfl

/-- Witness for `slicer_spec`: a 400 by 500 image, a 300 by 200 target and
a `(2, 3)` grid give 100 by 100 pieces tiling a 300 by 200 fitted image. -/
theorem slicer_spec_witness :
    load_image_fitted_size 400 500 300 200 2 3 = some (300, 200) ∧
    ∃ boxes, split_image 300 200 2 3 = some boxes ∧ boxes.length = 6 ∧
      ∀ (k : Nat), k < 6 →
        boxes[k]? = some ((k % 3) * 100, (k / 3) * 100,
          (k % 3) * 100 + 100, (k / 3) * 100 + 100) := by
  have hs := slicer_spec 400 500 300 200 2 3 (by decide) (by decide) (by decide)
    (by decide) (by decide)
  simpa using hs

/-- A handler none of whose pieces is dragging has consistent drag
bookkeeping. -/
theorem drag_flag_consistent_of_none (h : DragHandler)
    (hnone : h.game_state.pieces.all (fun p => !p.is_dragging) = true) :
    DragFlagConsistent h := by
  intro i p hp hq
  obtain ⟨hlt, heq⟩ := List.getElem?_eq_some.mp hp
  have hmem : p ∈ h.game_state.pieces := heq ▸ List.getElem_mem hlt
  have := List.all_eq_true.mp hnone p hmem
  rw [hq] at this
  exact Bool.noConfusion this

/-- Any single handler call keeps the drag bookkeeping consistent,
provided a `start_drag` on an actual piece only happens while no drag is
active. -/
theorem exec_op_preserves_drag_flags (h : DragHandler) (op : HandlerOp)
    (hinv : DragFlagConsistent h)
    (hguard : ∀ (i : Nat) (m : Int × Int), op = HandlerOp.start (some i) m →
      h.dragged_piece = none ∧ i < h.game_state.pieces.length) :
    DragFlagConsistent (exec_op h op) := by
  cases op with
  | start piece m =>
    cases piece with
    | none => simpa [exec_op, start_drag] using hinv
    | some i =>
      obtain ⟨hnone, hlen⟩ := hguard i m rfl
      have hp : h.game_state.pieces[i]? = some h.game_state.pieces[i] :=
        List.getElem?_eq_getElem hlen
      intro j q hj hq
      simp only [exec_op, start_drag, hp] at hj ⊢
      rw [List.getElem?_set] at hj
      by_cases hij : i = j
      · subst hij; simp
      · rw [if_neg hij] at hj
        have := hinv j q hj hq
        rw [hnone] at this
        exact Option.noConfusion this
  | update m =>
    cases hd : h.dragged_piece with
    | none => simpa [exec_op, update_drag, hd] using hinv
    | some i0 =>
      cases hpi : h.game_state.pieces[i0]? with
      | none => simpa [exec_op, update_drag, hd, hpi] using hinv
      | some p0 =>
        intro j q hj hq
        simp only [exec_op, update_drag, hd, hpi] at hj ⊢
        rw [List.getElem?_set] at hj
        by_cases hij : i0 = j
        · subst hij; rfl
        · rw [if_neg hij] at hj
          rw [← hd]
          exact hinv j q hj hq
  | finish =>
    cases hd : h.dragged_piece with
    | none => simpa [exec_op, end_drag, hd] using hinv
    | some i0 =>
      cases hpi : h.game_state.pieces[i0]? with
      | none =>
        intro j q hj hq
        simp only [exec_op, end_drag, hd, hpi] at hj ⊢
        have := hinv j q hj hq
        rw [hd] at this
        have hji : i0 = j := Option.some_inj.mp this
        subst hji
        rw [hpi] at hj
        exact Option.noConfusion hj
      | some p0 =>
        intro j q hj hq
        simp only [exec_op, end_drag, hd, hpi] at hj ⊢
        rw [List.getElem?_set] at hj
        have hlen : i0 < h.game_state.pieces.length :=
          (List.getElem?_eq_some.mp hpi).1
        by_cases hij : i0 = j
        · subst hij
          rw [if_pos rfl, if_pos hlen] at hj
          have hq2 := Option.some_inj.mp hj
          rw [← hq2] at hq
          exact Bool.noConfusion hq
        · rw [if_neg hij] at hj
          have := hinv j q hj hq
          rw [hd] at this
          exact absurd (Option.some_inj.mp this) hij
  | cancel =>
    cases hd : h.dragged_piece with
    | none => simpa [exec_op, cancel_drag, hd] using hinv
    | some i0 =>
      cases hpi : h.game_state.pieces[i0]? with
      | none =>
        intro j q hj hq
        simp only [exec_op, cancel_drag, hd, hpi] at hj ⊢
        have := hinv j q hj hq
        rw [hd] at this
        have hji : i0 = j := Option.some_inj.mp this
        subst hji
        rw [hpi] at hj
        exact Option.noConfusion hj
      | some p0 =>
        intro j q hj hq
        simp only [exec_op, cancel_drag, hd, hpi] at hj ⊢
        rw [List.getElem?_set] at hj
        have hlen : i0 < h.game_state.pieces.length :=
          (List.getElem?_eq_some.mp hpi).1
        by_cases hij : i0 = j
        · subst hij
          rw [if_pos rfl, if_pos hlen] at hj
          have hq2 := Option.some_inj.mp hj
          rw [← hq2] at hq
          exact Bool.noConfusion hq
        · rw [if_neg hij] at hj
          have := hinv j q hj hq
          rw [hd] at this
          exact absurd (Option.some_inj.mp this) hij
  | new_game area choice =>
    cases hng : new_game_reset h area choice with
    | none => simpa [exec_op, hng] using hinv
    | some h2 =>
      intro j q hj hq
      simp only [exec_op, hng] at hj ⊢
      obtain ⟨-, -, -, -, -, -, hlen, hidx⟩ :=
        new_game_reset_fields h h2 area choice hng
      have hjlt : j < h2.game_state.pieces.length := (List.getElem?_eq_some.mp hj).1
      have hjlt2 : j < h.game_state.pieces.length := by rw [← hlen]; exact hjlt
      have hpj : h.game_state.pieces[j]? = some h.game_state.pieces[j] :=
        List.getElem?_eq_getElem hjlt2
      have hj2 := hidx j _ hpj
      rw [hj] at hj2
      have hq2 := Option.some_inj.mp hj2
      rw [hq2] at hq
      exact Bool.noConfusion hq

/-- Guarded call sequences keep the drag bookkeeping consistent. -/
theorem exec_ops_preserves_drag_flags :
    ∀ (ops : List HandlerOp) (h : DragHandler), DragFlagConsistent h →
      ok_run h ops = true → DragFlagConsistent (exec_ops h ops) := by
  intro ops
  induction ops with
  | nil => intro h hinv _; simpa [exec_ops] using hinv
  | cons op ops ih =>
    intro h hinv hok
    simp only [ok_run, Bool.and_eq_true] at hok
    obtain ⟨hg, hok2⟩ := hok
    have hinv2 : DragFlagConsistent (exec_op h op) := by
      apply exec_op_preserves_drag_flags h op hinv
      intro i m hop
      subst hop
      simp only [beq_iff_eq, Bool.and_eq_true, decide_eq_true_eq] at hg
      exact hg
    simpa [exec_ops] using ih (exec_op h op) hinv2 hok2

/-- C2 (amended): across every call sequence in which `start_drag` is only
invoked while no drag is active (and on a piece of the registry), at most
one piece has `is_dragging = true` at any observable instant; the guard is
needed, since an unguarded second `start_drag` leaves two pieces flagged
(see the counterexample). -/
theorem at_most_one_dragging_of_guarded (h : DragHandler) (ops : List HandlerOp)
    (hinv : DragFlagConsistent h) (hok : ok_run h ops = true) :
    (exec_ops h ops).game_state.pieces.countP (fun p => p.is_dragging) ≤ 1 := by
  have hfin := exec_ops_preserves_drag_flags ops h hinv hok
  apply countP_le_one_of_unique _ _ ((exec_ops h ops).dragged_piece) 0
  intro i a ha hpa
  rw [hfin i a ha hpa]
  simp

/-- Witness for `at_most_one_dragging_of_guarded`: a guarded
drag-release-drag sequence on the concrete two-piece handler leaves at
most one dragging piece. -/
theorem at_most_one_dragging_of_guarded_witness :
    ok_run two_piece_handler
      [HandlerOp.start (some 0) (0, 0), HandlerOp.finish,
        HandlerOp.start (some 1) (50, 0)] = true ∧
    (exec_ops two_piece_handler
        [HandlerOp.start (some 0) (0, 0), HandlerOp.finish,
          HandlerOp.start (some 1) (50, 0)]).game_state.pieces.countP
      (fun p => p.is_dragging) ≤ 1 :=
  ⟨by decide,
    at_most_one_dragging_of_guarded two_piece_handler
      [HandlerOp.start (some 0) (0, 0), HandlerOp.finish,
        HandlerOp.start (some 1) (50, 0)]
      (drag_flag_consistent_of_none two_piece_handler (by decide)) (by decide)⟩

/-- Replacing a list entry by one with the same predicate value keeps
`countP` unchanged. -/
theorem countP_set_congr (p : α → Bool) (l : List α) (i : Nat) (a b : α)
    (hb : l[i]? = some b) (hpa : p a = p b) :
    (l.set i a).countP p = l.countP p := by
  have := countP_set_eq p l i a b hb
  rw [hpa] at this
  omega

/-- `check_completion` only writes `is_completed`; pieces, move count and
the failure flag pass through, and the returned flag is exactly whether
every piece is placed. -/
theorem check_completion_fields (gs : GameState) :
    (check_completion gs).1.pieces = gs.pieces ∧
    (check_completion gs).1.move_count = gs.move_count ∧
    (check_completion gs).1.is_failed = gs.is_failed ∧
    (check_completion gs).2 = gs.pieces.all (fun p => p.is_placed) := by
  unfold check_completion
  split
  · rename_i hall
    exact ⟨rfl, rfl, rfl, hall.symm⟩
  · rename_i hall
    simp only [Bool.not_eq_true] at hall
    exact ⟨rfl, rfl, rfl, hall.symm⟩

/-- The inductive invariant of a challenge-mode session: the piece count
is fixed, the move count never exceeds the number of placed pieces (each
move is a successful placement and pieces are never unplaced), and the
session has not failed. -/
def ChallengeInv (n : Nat) (h : DragHandler) : Prop :=
  h.game_state.pieces.length = n ∧
  h.game_state.move_count ≤ h.game_state.pieces.countP (fun p => p.is_placed) ∧
  h.game_state.is_failed = false

/-- Every event dispatch of the main loop preserves the challenge-mode
invariant. -/
theorem process_event_preserves (n : Nat) (h : DragHandler) (e : GameEvent)
    (hinv : ChallengeInv n h) : ChallengeInv n (process_event h e) := by
  obtain ⟨hlen, hmove, hfail⟩ := hinv
  cases e with
  | mouse_down pos =>
    simp only [process_event]
    split
    · exact ⟨hlen, hmove, hfail⟩
    · split
      · exact ⟨hlen, hmove, hfail⟩
      · rename_i j hhit
        split
        · exact ⟨hlen, hmove, hfail⟩
        · rename_i p hpj
          split
          · exact ⟨hlen, hmove, hfail⟩
          · simp only [start_drag, hpj]
            refine ⟨by simpa using hlen, ?_, hfail⟩
            have hc := countP_set_congr (fun q => q.is_placed) h.game_state.pieces j
              { p with is_dragging := true, z_index := h.max_z_index + 1 } p hpj (by rfl)
            simpa [hc] using hmove
  | mouse_motion pos =>
    simp only [process_event]
    split
    · exact ⟨hlen, hmove, hfail⟩
    · rename_i i0 hd
      simp only [update_drag, hd]
      cases hpi : h.game_state.pieces[i0]? with
      | none => exact ⟨hlen, hmove, hfail⟩
      | some p =>
        refine ⟨by simpa using hlen, ?_, hfail⟩
        have hc := countP_set_congr (fun q => q.is_placed) h.game_state.pieces i0
          { p with pixel_position := some (pos.1 - h.drag_offset.1, pos.2 - h.drag_offset.2) }
          p hpi (by rfl)
        simpa [hc] using hmove
  | mouse_up =>
    simp only [process_event]
    split
    · exact ⟨hlen, hmove, hfail⟩
    · rename_i i0 hd
      simp only [end_drag, hd]
      cases hpi : h.game_state.pieces[i0]? with
      | none => exact ⟨hlen, hmove, hfail⟩
      | some p0 =>
        by_cases hsnap : (check_snap_to_grid h.snap_threshold p0).2 = true
        · rw [if_pos hsnap]
          obtain ⟨hp0, hp1⟩ := (check_snap_flags h.snap_threshold p0).1 hsnap
          have hcc := check_completion_fields
            { h.game_state with
              pieces := h.game_state.pieces.set i0
                { (check_snap_to_grid h.snap_threshold p0).1 with is_dragging := false }
              move_count := h.game_state.move_count + 1 }
          have hcnt2 : (h.game_state.pieces.set i0
              { (check_snap_to_grid h.snap_threshold p0).1 with
                is_dragging := false }).countP (fun q => q.is_placed) =
              h.game_state.pieces.countP (fun q => q.is_placed) + 1 := by
            have hcnt := countP_set_eq (fun q => q.is_placed) h.game_state.pieces i0
              { (check_snap_to_grid h.snap_threshold p0).1 with is_dragging := false }
              p0 hpi
            have hv1 : (if (fun q : JigsawPiece => q.is_placed) p0 = true
                then 1 else 0) = 0 := by simp [hp0]
            have hv2 : (if (fun q : JigsawPiece => q.is_placed)
                { (check_snap_to_grid h.snap_threshold p0).1 with
                  is_dragging := false } = true then 1 else 0) = 1 := by
              simp [hp1]
            rw [hv1, hv2] at hcnt
            omega
          split
          · refine ⟨?_, ?_, ?_⟩
            · simpa [hcc.1] using hlen
            · simp [hcc.1, hcc.2.1, hcnt2]
              omega
            · simpa [hcc.2.2.1] using hfail
          · refine ⟨?_, ?_, ?_⟩
            · simpa [hcc.1] using hlen
            · simp [hcc.1, hcc.2.1, hcnt2]
              omega
            · simpa [hcc.2.2.1] using hfail
        · rw [if_neg hsnap]
          have heq := (check_snap_flags h.snap_threshold p0).2
            (Bool.not_eq_true _ ▸ (by simpa using hsnap))
          refine ⟨by simpa using hlen, ?_, hfail⟩
          have hc := countP_set_congr (fun q => q.is_placed) h.game_state.pieces i0
            { (check_snap_to_grid h.snap_threshold p0).1 with is_dragging := false }
            p0 hpi (by rw [heq])
          simpa [hc] using hmove
  | key_n area choice =>
    simp only [process_event]
    split
    · cases hng : new_game_reset h area choice with
      | none => exact ⟨hlen, hmove, hfail⟩
      | some h2 =>
        obtain ⟨-, -, -, hm, -, hf, hl, -⟩ := new_game_reset_fields h h2 area choice hng
        refine ⟨by rw [hl]; exact hlen, by rw [hm]; exact Nat.zero_le _, by rw [hf]; exact hfail⟩
    · exact ⟨hlen, hmove, hfail⟩
  | key_escape =>
    simp only [process_event]
    split
    · exact ⟨hlen, hmove, hfail⟩
    · rename_i i0 hd
      simp only [cancel_drag, hd]
      cases hpi : h.game_state.pieces[i0]? with
      | none => exact ⟨hlen, hmove, hfail⟩
      | some p =>
        refine ⟨by simpa using hlen, ?_, hfail⟩
        have hc := countP_set_congr (fun q => q.is_placed) h.game_state.pieces i0
          { p with is_dragging := false } p hpi (by rfl)
        simpa [hc] using hmove

/-- With the challenge move limit `3 * n` the per-frame mode check never
fires (the move count can never reach three moves per piece), so it
preserves the invariant. -/
theorem mode_check_preserves (n : Nat) (h : DragHandler)
    (hinv : ChallengeInv n h) :
    ChallengeInv n (challenge_mode_check (3 * n) h) := by
  obtain ⟨hlen, hmove, hfail⟩ := hinv
  unfold challenge_mode_check
  split
  · exact ⟨hlen, hmove, hfail⟩
  · split
    · rename_i hcond
      obtain ⟨h3, hle⟩ := hcond
      exfalso
      have hcp : h.game_state.pieces.countP (fun p => p.is_placed) ≤ n := by
        rw [← hlen]
        exact List.countP_le_length _
      omega
    · exact ⟨hlen, hmove, hfail⟩

/-- A whole frame (event handling plus mode check) preserves the
challenge-mode invariant. -/
theorem run_frame_preserves (n : Nat) (events : List GameEvent) :
    ∀ (h : DragHandler), ChallengeInv n h →
      ChallengeInv n (run_frame (3 * n) h events) := by
  have hfold : ∀ (es : List GameEvent) (h : DragHandler), ChallengeInv n h →
      ChallengeInv n (es.foldl process_event h) := by
    intro es
    induction es with
    | nil => intro h hinv; simpa using hinv
    | cons e es ih =>
      intro h hinv
      simpa using ih (process_event h e) (process_event_preserves n h e hinv)
  intro h hinv
  exact mode_check_preserves n _ (hfold events h hinv)

/-- A whole challenge-mode session preserves the invariant. -/
theorem run_frames_preserves (n : Nat) (frames : List (List GameEvent)) :
    ∀ (h : DragHandler), ChallengeInv n h →
      ChallengeInv n (run_frames (3 * n) h frames) := by
  induction frames with
  | nil => intro h hinv; simpa [run_frames] using hinv
  | cons es frames ih =>
    intro h hinv
    simpa [run_frames] using ih (run_frame (3 * n) h es)
      (run_frame_preserves n es h hinv)

/-- C6: in challenge mode, reaching the move limit fails the session only
when the puzzle is not solved at that moment (first conjunct: the mode
check sets `is_failed` only if it was already set or not every piece is
placed), and along any session starting from a fresh challenge state a
state with every piece placed and `is_failed` set is never reached
(second conjunct). -/
theorem challenge_limit_success_priority (h : DragHandler)
    (frames : List (List GameEvent))
    (hmove : h.game_state.move_count = 0)
    (hfail : h.game_state.is_failed = false) :
    (∀ (s : DragHandler) (L : Nat),
        (challenge_mode_check L s).game_state.is_failed = true →
        s.game_state.is_failed = true ∨
          s.game_state.pieces.all (fun p => p.is_placed) = false) ∧
    ¬ ((run_frames (3 * h.game_state.pieces.length) h frames).game_state.pieces.all
          (fun p => p.is_placed) = true ∧
        (run_frames (3 * h.game_state.pieces.length) h
            frames).game_state.is_failed = true) := by
  constructor
  · intro s L hs
    unfold challenge_mode_check at hs
    split at hs
    · exact Or.inl hs
    · split at hs
      · set c := check_completion s.game_state with hc
        by_cases hc2 : c.2 = true
        · rw [if_pos hc2] at hs
          left
          have hf := (check_completion_fields s.game_state).2.2.1
          rw [← hc] at hf
          rw [← hf]
          simpa using hs
        · right
          have := (check_completion_fields s.game_state).2.2.2
          rw [← hc] at this
          rw [← this]
          simpa using hc2
      · exact Or.inl hs
  · intro ⟨hall, hfailed⟩
    have hinv : ChallengeInv h.game_state.pieces.length h :=
      ⟨rfl, by rw [hmove]; exact Nat.zero_le _, hfail⟩
    have hfin := run_frames_preserves h.game_state.pieces.length frames h hinv
    rw [hfin.2.2] at hfailed
    exact Bool.noConfusion hfailed

/-- Witness for `challenge_limit_success_priority`: a concrete session
that picks up the free piece and drops it. -/
theorem challenge_limit_success_priority_witness :
    free_handler.game_state.move_count = 0 ∧
    free_handler.game_state.is_failed = false ∧
    ((∀ (s : DragHandler) (L : Nat),
        (challenge_mode_check L s).game_state.is_failed = true →
        s.game_state.is_failed = true ∨
          s.game_state.pieces.all (fun p => p.is_placed) = false) ∧
      ¬ ((run_frames (3 * free_handler.game_state.pieces.length) free_handler
            [[GameEvent.mouse_down (10, 10)], [GameEvent.mouse_up]]
          ).game_state.pieces.all (fun p => p.is_placed) = true ∧
          (run_frames (3 * free_handler.game_state.pieces.length) free_handler
            [[GameEvent.mouse_down (10, 10)], [GameEvent.mouse_up]]
          ).game_state.is_failed = true)) :=
  ⟨rfl, rfl,
    challenge_limit_success_priority free_handler
      [[GameEvent.mouse_down (10, 10)], [GameEvent.mouse_up]] rfl rfl⟩

end Puzzle
